import Mathlib

/-!
Shallow embedding of the order-fulfillment and refund-compensation core of
the ldc-shop repository, together with proofs of the specification claims.

Source files embedded:
* `src/lib/order-processing.ts` — `processOrderFulfillment` (the Claimer)
* the server-action file containing `markOrderRefunded` (the Compensator)

Modelling conventions:
* The relational store is a `DB` record of lists of rows.
* Currency amounts are rationals (`ℚ`); the epsilon test `|paid − amount| > 0.01`
  is the exact comparison of the source.
* Time is seconds as `ℕ`; `NOW()` is an explicit `now` parameter; the SQL
  freshness test `reserved_at < NOW() - INTERVAL '1 minute'` becomes
  `reservedAt + 60 < now`.
* SQL `UPDATE ... WHERE p` maps every row satisfying `p`; `LIMIT 1` selection
  takes the first row of the list satisfying the predicate (`List.find?`),
  and `RETURNING`'s `rows[0]` is the head of the matched rows.
* A thrown error aborts the enclosing transaction: operations return the
  post-state paired with an `Except`, and every error branch returns the
  original state.
* JavaScript truthiness of `string | undefined` (`undefined` and `""` are
  falsy) is modelled by `optStrTruthy`.
-/

inductive OrderStatus where
  | pending
  | paid
  | delivered
  | cancelled
  | refunded
  deriving DecidableEq, Repr

structure Order where
  orderId : String
  productId : String
  amount : ℚ
  status : OrderStatus
  tradeNo : Option String
  cardKey : Option String
  userId : Option String
  pointsUsed : Int
  paidAt : Option Nat
  deliveredAt : Option Nat
  deriving DecidableEq, Repr

structure Card where
  id : Nat
  productId : String
  cardKey : String
  isUsed : Bool
  usedAt : Option Nat
  reservedOrderId : Option String
  reservedAt : Option Nat
  deriving DecidableEq, Repr

structure LoginUser where
  userId : String
  points : Int
  deriving DecidableEq, Repr

structure RefundRequest where
  orderId : String
  status : String
  processedAt : Option Nat
  updatedAt : Option Nat
  deriving DecidableEq, Repr

/-- The shared relational store.  `supportsReservation` records whether the
deployed schema has the optional `reserved_order_id` / `reserved_at` columns;
when it does not, the reservation-aware queries raise an undefined-column
error that the code catches and answers with the legacy strategy. -/
structure DB where
  orders : List Order
  cards : List Card
  loginUsers : List LoginUser
  refundRequests : List RefundRequest
  supportsReservation : Bool
  deriving DecidableEq, Repr

/-- JavaScript truthiness of a `string | undefined` value:
`undefined` and the empty string are falsy. -/
def optStrTruthy : Option String → Bool
  | none => false
  | some s => decide (s ≠ "")

/-- Models `db.query.orders.findFirst({ where: eq(orders.orderId, orderId) })`. -/
def findOrder (l : List Order) (oid : String) : Option Order :=
  l.find? (fun o => decide (o.orderId = oid))

/-- Models `tx.update(orders).set(...).where(eq(orders.orderId, orderId))`:
every row with this `orderId` is mapped through `f`. -/
def updateOrders (l : List Order) (oid : String) (f : Order → Order) : List Order :=
  l.map (fun o => if o.orderId = oid then f o else o)

/-- Models `findFirst` on the users table. -/
def findUser (l : List LoginUser) (uid : String) : Option LoginUser :=
  l.find? (fun u => decide (u.userId = uid))

/-- A card row matched by the reserved-card claim:
`reserved_order_id = ${orderId} AND COALESCE(is_used, false) = false`. -/
def reservedFor (oid : String) (c : Card) : Bool :=
  decide (c.reservedOrderId = some oid) && !c.isUsed

/-- The reserved-card claim of `processOrderFulfillment` (first UPDATE):
marks used every unused card reserved for this order — no LIMIT, no
product filter, no freshness check — clearing the reservation fields, and
returns `rows[0]?.card_key`. -/
def claimReservedCards (cards : List Card) (oid : String) (now : Nat) :
    List Card × Option String :=
  (cards.map (fun c => if reservedFor oid c = true then
      { c with isUsed := true, usedAt := some now,
               reservedOrderId := none, reservedAt := none } else c),
   ((cards.filter (reservedFor oid)).map (fun c => c.cardKey)).head?)

/-- Eligibility predicate of the reservation-aware availability claim:
`product_id = ${order.productId} AND COALESCE(is_used, false) = false AND
(reserved_at IS NULL OR reserved_at < NOW() - INTERVAL '1 minute')`. -/
def eligibleAvailable (pid : String) (now : Nat) (c : Card) : Bool :=
  decide (c.productId = pid) && !c.isUsed &&
    (match c.reservedAt with
     | none => true
     | some t => decide (t + 60 < now))

/-- Eligibility predicate of the legacy availability claim (schema without
reservation columns): `product_id = ... AND COALESCE(is_used, false) = false`. -/
def eligibleLegacy (pid : String) (c : Card) : Bool :=
  decide (c.productId = pid) && !c.isUsed

/-- The availability claim (second / third UPDATE): pick the first row
satisfying `pred` (`LIMIT 1 FOR UPDATE SKIP LOCKED` on the subselect), flip
it to used via `WHERE id = (...)`, and return its `card_key`.  The
reservation-aware variant also clears the reservation columns. -/
def claimAvailableCard (cards : List Card) (pred : Card → Bool)
    (now : Nat) (clearReservation : Bool) : List Card × Option String :=
  match cards.find? pred with
  | none => (cards, none)
  | some c =>
    (cards.map (fun c2 => if c2.id = c.id then
        (if clearReservation then
          { c2 with isUsed := true, usedAt := some now,
                    reservedOrderId := none, reservedAt := none }
         else
          { c2 with isUsed := true, usedAt := some now }) else c2),
     some c.cardKey)

inductive FulfillError where
  | orderNotFound
  | amountMismatch
  deriving DecidableEq, Repr

inductive FulfillStatus where
  | processed
  | alreadyProcessed
  deriving DecidableEq, Repr

/-- The card-claiming phase of the fulfillment transaction: the reserved-card
claim, then — if it produced no (truthy) key — the availability claim, in its
reservation-aware or legacy variant depending on the schema.  Returns the new
cards table and the claimed key. -/
def claimPhase (db : DB) (orderId : String) (productId : String) (now : Nat) :
    List Card × Option String :=
  let step1 : List Card × Option String :=
    if db.supportsReservation then claimReservedCards db.cards orderId now
    else (db.cards, none)  -- undefined-column error caught, falls through
  if optStrTruthy step1.2 then step1
  else if db.supportsReservation then
    claimAvailableCard step1.1 (eligibleAvailable productId now) now true
  else
    claimAvailableCard step1.1 (eligibleLegacy productId) now false

/-- The `db.transaction` body of `processOrderFulfillment`: claim a card,
then write the order row — `delivered` (with `paidAt`, `deliveredAt`,
`tradeNo`, `cardKey`) when a (truthy) key was claimed, `paid` (with `paidAt`,
`tradeNo`) otherwise. -/
def fulfillTransaction (db : DB) (orderId : String) (tradeNo : String)
    (now : Nat) (productId : String) : DB :=
  let claimed : List Card × Option String := claimPhase db orderId productId now
  let newOrders : List Order :=
    if optStrTruthy claimed.2 then
      updateOrders db.orders orderId (fun o =>
        { o with status := .delivered, paidAt := some now,
                 deliveredAt := some now, tradeNo := some tradeNo,
                 cardKey := claimed.2 })
    else
      updateOrders db.orders orderId (fun o =>
        { o with status := .paid, paidAt := some now, tradeNo := some tradeNo })
  { db with orders := newOrders, cards := claimed.1 }

/-- Models `processOrderFulfillment(orderId, paidAmount, tradeNo)` from
`src/lib/order-processing.ts`, with `NOW()` supplied as `now`.  Errors
abort the transaction, so the original state is returned beside them. -/
def processOrderFulfillment (db : DB) (orderId : String) (paidAmount : ℚ)
    (tradeNo : String) (now : Nat) : DB × Except FulfillError FulfillStatus :=
  match findOrder db.orders orderId with
  | none => (db, .error .orderNotFound)
  | some order =>
    if |paidAmount - order.amount| > 1/100 then
      (db, .error .amountMismatch)
    else if order.status = .pending ∨ order.status = .cancelled then
      (fulfillTransaction db orderId tradeNo now order.productId, .ok .processed)
    else
      (db, .ok .alreadyProcessed)

/-- Serial execution of a batch of fulfillment calls, one per order, in a
given arrival order.  The database's `FOR UPDATE SKIP LOCKED` row locking
serializes concurrent claim transactions, so any concurrent schedule of
N fulfillments is realised as one of these serial orders. -/
def fulfillMany (db : DB) (l : List (String × ℚ)) (tno : String) (now : Nat) : DB :=
  match l with
  | [] => db
  | (oid, paid) :: rest =>
    fulfillMany (processOrderFulfillment db oid paid tno now).1 rest tno now

inductive RefundError where
  | unauthorized
  | orderNotFound
  deriving DecidableEq, Repr

/-- Models `markOrderRefunded(orderId)` from the refund server-action file.  The
admin session check is abstracted to the boolean `isAuthorizedAdmin`
(the auth provider is an external collaborator).  The two best-effort
steps sit in `try { ... } catch { /* ignore */ }`: `cardStepThrows` and
`refundReqStepThrows` say whether the respective UPDATE throws, in which
case its mutation is lost but execution continues.  The post-commit
`revalidatePath` calls touch no modelled state. -/
def markOrderRefunded (db : DB) (orderId : String) (isAuthorizedAdmin : Bool)
    (cardStepThrows : Bool) (refundReqStepThrows : Bool) (now : Nat) :
    DB × Except RefundError Unit :=
  if !isAuthorizedAdmin then
    (db, .error .unauthorized)
  else
    match findOrder db.orders orderId with
    | none => (db, .error .orderNotFound)
    | some order =>
      -- Refund points if used: `order.userId && order.pointsUsed && order.pointsUsed > 0`
      let users1 : List LoginUser :=
        match order.userId with
        | some uid =>
          if uid ≠ "" ∧ 0 < order.pointsUsed then
            db.loginUsers.map (fun u => if u.userId = uid then
              { u with points := u.points + order.pointsUsed } else u)
          else db.loginUsers
        | none => db.loginUsers
      -- Update order status
      let orders1 : List Order :=
        updateOrders db.orders orderId (fun o => { o with status := .refunded })
      -- Reclaim card back to stock (best effort)
      let cards1 : List Card :=
        match order.cardKey with
        | some ck =>
          if ck ≠ "" ∧ cardStepThrows = false then
            db.cards.map (fun c =>
              if c.productId = order.productId ∧ c.cardKey = ck then
                { c with isUsed := false, usedAt := none } else c)
          else db.cards
        | none => db.cards
      -- Mark refund request processed if table exists (best effort)
      let reqs1 : List RefundRequest :=
        if refundReqStepThrows then db.refundRequests
        else db.refundRequests.map (fun r => if r.orderId = orderId then
          { r with status := "processed", processedAt := some now,
                   updatedAt := some now } else r)
      ({ db with orders := orders1, cards := cards1,
                 loginUsers := users1, refundRequests := reqs1 }, .ok ())

deriving instance DecidableEq for Except

/-! ### Invariants and the step relation -/

/-- The invariant stated by the spec (§3): `cardKey` is non-null **iff**
`status = delivered`. -/
def cardKeyIffDelivered (o : Order) : Prop :=
  o.cardKey ≠ none ↔ o.status = .delivered

/-- The per-order invariant the code actually preserves: a delivered order
has a card key, and an order holding a card key is delivered *or refunded*
(compensation keeps the key while moving the status to refunded). -/
def cardKeyInv (o : Order) : Prop :=
  (o.status = .delivered → o.cardKey ≠ none) ∧
  (o.cardKey ≠ none → o.status = .delivered ∨ o.status = .refunded)

/-- One step of the system: some fulfillment call or some compensation call,
with any arguments and any outcome. -/
def reachableStep (db db' : DB) : Prop :=
  (∃ oid paid tno now r, processOrderFulfillment db oid paid tno now = (db', r)) ∨
  (∃ oid adm b1 b2 now r, markOrderRefunded db oid adm b1 b2 now = (db', r))

instance (o : Order) : Decidable (cardKeyIffDelivered o) := by
  unfold cardKeyIffDelivered; infer_instance

instance (o : Order) : Decidable (cardKeyInv o) := by
  unfold cardKeyInv; infer_instance

/-! ### Concrete stores used by witnesses and counterexamples -/

def oA : Order := ⟨"O1", "P1", 999/100, .pending, none, none, some "U1", 5, none, none⟩

def cA : Card := ⟨1, "P1", "K1", false, none, none, none⟩

def dbA : DB := ⟨[oA], [cA], [⟨"U1", 3⟩], [], true⟩

def oB : Order := ⟨"O1", "P1", 10, .delivered, some "T0", some "K1", none, 0, some 1, some 1⟩

def dbB : DB := ⟨[oB], [], [], [], true⟩

def oC : Order := ⟨"O6", "P6", 999/100, .pending, none, none, none, 0, none, none⟩

def dbC : DB := ⟨[oC], [⟨1, "P6", "KEY6", false, none, none, none⟩], [], [], true⟩

def oC' : Order := ⟨"O6", "P6", 999/100, .delivered, some "T1", some "KEY6", none, 0, some 0, some 0⟩

def dbC' : DB := ⟨[oC'], [⟨1, "P6", "KEY6", true, some 0, none, none⟩], [], [], true⟩

def oD : Order := ⟨"O7", "P7", 5, .delivered, some "T7", some "K7", some "U7", 5, some 1, some 1⟩

def cD : Card := ⟨7, "P7", "K7", true, some 1, none, none⟩

def dbD : DB := ⟨[oD], [cD], [⟨"U7", 10⟩], [⟨"O7", "pending", none, none⟩], true⟩

def oE : Order := ⟨"O8", "P8", 7, .delivered, some "T8", some "K8", some "U8", 2, some 1, some 1⟩

def dbE : DB := ⟨[oE], [], [⟨"U8", 0⟩], [], true⟩

def oF : Order := ⟨"O9", "P9", 3, .pending, none, none, none, 0, none, none⟩

def cF1 : Card := ⟨1, "PX", "KA", false, none, some "O9", some 100⟩

def cF2 : Card := ⟨2, "P9", "KB", false, none, some "O9", some 100⟩

def dbF : DB := ⟨[oF], [cF1, cF2], [], [], true⟩

def oG : Order := ⟨"OY", "PG", 4, .pending, none, none, none, 0, none, none⟩

def cG : Card := ⟨1, "PG", "KG", false, none, some "OX", some 100⟩

def dbG : DB := ⟨[oG], [cG], [], [], true⟩

def oH1 : Order := ⟨"OH1", "PC", 2, .pending, none, none, none, 0, none, none⟩

def oH2 : Order := ⟨"OH2", "PC", 2, .pending, none, none, none, 0, none, none⟩

def oH3 : Order := ⟨"OH3", "PC", 2, .pending, none, none, none, 0, none, none⟩

def dbH : DB := ⟨[oH1, oH2, oH3],
  [⟨1, "PC", "KC1", false, none, none, none⟩, ⟨2, "PC", "KC2", false, none, none, none⟩],
  [], [], true⟩

/-! ## Supporting lemmas -/

theorem map_eq_self_of {α : Type} (l : List α) (f : α → α) (h : ∀ x ∈ l, f x = x) :
    l.map f = l := by
  induction l with
  | nil => rfl
  | cons a t ih =>
    simp only [List.map_cons, h a (List.mem_cons_self a t)]
    rw [ih (fun x hx => h x (List.mem_cons_of_mem a hx))]

theorem findOrder_updateOrders_self (l : List Order) (oid : String) (f : Order → Order)
    (hf : ∀ o, (f o).orderId = o.orderId) :
    findOrder (updateOrders l oid f) oid = (findOrder l oid).map f := by
  induction l with
  | nil => rfl
  | cons a t ih =>
    by_cases h : a.orderId = oid
    · simp [updateOrders, findOrder, List.find?_cons, h, hf]
    · simp only [updateOrders, List.map_cons, if_neg h]
      simp only [findOrder, List.find?_cons, h, decide_False] at ih ⊢
      exact ih

theorem findOrder_updateOrders_other (l : List Order) (oid oid' : String)
    (f : Order → Order) (hf : ∀ o, (f o).orderId = o.orderId) (h : oid' ≠ oid) :
    findOrder (updateOrders l oid f) oid' = findOrder l oid' := by
  induction l with
  | nil => rfl
  | cons a t ih =>
    by_cases ha : a.orderId = oid
    · have hne : (f a).orderId ≠ oid' := by
        rw [hf a, ha]; exact fun hc => h hc.symm
      have hne2 : a.orderId ≠ oid' := by rw [ha]; exact fun hc => h hc.symm
      simp only [updateOrders, List.map_cons, if_pos ha, findOrder, List.find?_cons,
        hne, hne2, decide_False] at ih ⊢
      exact ih
    · by_cases ha' : a.orderId = oid'
      · simp [updateOrders, findOrder, List.find?_cons, ha, ha', h]
      · simp only [updateOrders, List.map_cons, if_neg ha, findOrder, List.find?_cons,
          ha', decide_False] at ih ⊢
        exact ih

/-- Unfolding lemma: `processOrderFulfillment` on a found order. -/
theorem processOrderFulfillment_found (db : DB) (oid : String) (paid : ℚ)
    (tno : String) (now : Nat) (o : Order)
    (hfind : findOrder db.orders oid = some o) :
    processOrderFulfillment db oid paid tno now =
      if |paid - o.amount| > 1/100 then (db, .error .amountMismatch)
      else if o.status = .pending ∨ o.status = .cancelled then
        (fulfillTransaction db oid tno now o.productId, .ok .processed)
      else (db, .ok .alreadyProcessed) := by
  unfold processOrderFulfillment
  rw [hfind]

/-- Helper: with a matching amount, a call on an order that is neither
pending nor cancelled is a pure no-op reporting `alreadyProcessed`. -/
theorem fulfill_alreadyProcessed (db : DB) (oid : String) (paid : ℚ)
    (tno : String) (now : Nat) (o : Order)
    (hfind : findOrder db.orders oid = some o)
    (hamt : ¬(|paid - o.amount| > 1/100))
    (hstat : ¬(o.status = .pending ∨ o.status = .cancelled)) :
    processOrderFulfillment db oid paid tno now = (db, .ok .alreadyProcessed) := by
  rw [processOrderFulfillment_found db oid paid tno now o hfind,
    if_neg hamt, if_neg hstat]

/-! ## C5 — amount mismatch aborts with no state change -/

/-- C5: for every existing order and every paid amount differing from the
order's recorded amount by more than 0.01, `processOrderFulfillment` fails
with `amountMismatch` and returns the store exactly as it was. -/
theorem fulfill_amountMismatch_rolls_back (db : DB) (oid : String) (paid : ℚ)
    (tno : String) (now : Nat) (o : Order)
    (hfind : findOrder db.orders oid = some o)
    (hamt : |paid - o.amount| > 1/100) :
    processOrderFulfillment db oid paid tno now = (db, .error .amountMismatch) := by
  rw [processOrderFulfillment_found db oid paid tno now o hfind, if_pos hamt]

/-- Witness for C5 at a concrete store: paying 12 against a 9.99 order. -/
theorem fulfill_amountMismatch_rolls_back_witness :
    processOrderFulfillment dbA "O1" 12 "T1" 0 = (dbA, .error .amountMismatch) :=
  fulfill_amountMismatch_rolls_back dbA "O1" 12 "T1" 0 oA rfl
    (by rw [show (12:ℚ) - oA.amount = 201/100 by norm_num [oA],
          abs_of_nonneg (by norm_num : (0:ℚ) ≤ 201/100)]; norm_num)

/-! ## C4 — idempotence for non-pending orders (corrected) -/

/-- C4 counterexample: the amount check runs *before* the status check,
so on a `delivered` order a mismatched `paidAmount` raises `amountMismatch`
instead of returning `alreadyProcessed` — the call is not a no-op for *every*
`paidAmount`. -/
theorem fulfill_nonpending_not_always_noop_cex :
    oB.status = .delivered ∧
    findOrder dbB.orders "O1" = some oB ∧
    processOrderFulfillment dbB "O1" 20 "T1" 0 = (dbB, .error .amountMismatch) ∧
    (processOrderFulfillment dbB "O1" 20 "T1" 0).2 ≠ .ok .alreadyProcessed := by
  have h3 : processOrderFulfillment dbB "O1" 20 "T1" 0 = (dbB, .error .amountMismatch) := by
    rw [processOrderFulfillment_found dbB "O1" 20 "T1" 0 oB rfl,
      if_pos (by rw [show (20:ℚ) - oB.amount = 10 by norm_num [oB],
        abs_of_nonneg (by norm_num : (0:ℚ) ≤ 10)]; norm_num)]
  exact ⟨rfl, rfl, h3, by rw [h3]; decide⟩

/-- C4 amended: for every order whose status is neither `pending` nor
`cancelled`, and every `paidAmount` *within 0.01 of the recorded amount*
(the amount guard runs first), the call returns `alreadyProcessed`, raises
no error, and leaves the store untouched. -/
theorem fulfill_nonpending_noop (db : DB) (oid : String) (paid : ℚ)
    (tno : String) (now : Nat) (o : Order)
    (hfind : findOrder db.orders oid = some o)
    (hamt : ¬(|paid - o.amount| > 1/100))
    (hstat : ¬(o.status = .pending ∨ o.status = .cancelled)) :
    processOrderFulfillment db oid paid tno now = (db, .ok .alreadyProcessed) :=
  fulfill_alreadyProcessed db oid paid tno now o hfind hamt hstat

/-- Witness for the amended C4 on a delivered order with the exact amount. -/
theorem fulfill_nonpending_noop_witness :
    processOrderFulfillment dbB "O1" 10 "T1" 0 = (dbB, .ok .alreadyProcessed) :=
  fulfill_nonpending_noop dbB "O1" 10 "T1" 0 oB rfl
    (by rw [show (10:ℚ) - oB.amount = 0 by norm_num [oB], abs_zero]; norm_num)
    (by decide)

/-! ## C6 — the 9.99 / 10.00 boundary scenario (corrected) -/

/-- C6 counterexample: against a pending order of amount 9.99, paying
10.00 does *not* fail with `amountMismatch`: the guard only rejects
differences strictly greater than 0.01 and `|10.00 − 9.99| = 0.01`, so the
call succeeds with `processed`. -/
theorem fulfill_epsilon_boundary_cex :
    (processOrderFulfillment dbC "O6" 10 "T1" 0).2 ≠ .error .amountMismatch ∧
    (processOrderFulfillment dbC "O6" 10 "T1" 0).2 = .ok .processed := by
  have hrun : processOrderFulfillment dbC "O6" 10 "T1" 0 = (dbC', .ok .processed) := by
    rw [processOrderFulfillment_found dbC "O6" 10 "T1" 0 oC rfl,
      if_neg (by rw [show (10:ℚ) - oC.amount = 1/100 by norm_num [oC],
        abs_of_nonneg (by norm_num : (0:ℚ) ≤ 1/100)]; norm_num),
      if_pos (by simp [oC])]
    rfl
  exact ⟨by rw [hrun]; decide, by rw [hrun]⟩

/-- C6 amended: `fulfill(O, 10.00, "T1")` on the pending 9.99 order
*succeeds* with `processed` (a 0.01 difference is within the epsilon, which
only rejects strictly greater differences) and delivers the available card;
the subsequent `fulfill(O, 9.99, "T1")` reports `alreadyProcessed` and
changes nothing. -/
theorem fulfill_epsilon_boundary_amended :
    processOrderFulfillment dbC "O6" 10 "T1" 0 = (dbC', .ok .processed) ∧
    (findOrder dbC'.orders "O6").map Order.status = some .delivered ∧
    (findOrder dbC'.orders "O6").bind Order.cardKey = some "KEY6" ∧
    processOrderFulfillment dbC' "O6" (999/100) "T1" 1 = (dbC', .ok .alreadyProcessed) := by
  refine ⟨?_, by rfl, by rfl, ?_⟩
  · rw [processOrderFulfillment_found dbC "O6" 10 "T1" 0 oC rfl,
      if_neg (by rw [show (10:ℚ) - oC.amount = 1/100 by norm_num [oC],
        abs_of_nonneg (by norm_num : (0:ℚ) ≤ 1/100)]; norm_num),
      if_pos (by simp [oC])]
    rfl
  · rw [processOrderFulfillment_found dbC' "O6" (999/100) "T1" 1 oC' rfl,
      if_neg (by rw [show (999:ℚ)/100 - oC'.amount = 0 by norm_num [oC'], abs_zero]; norm_num),
      if_neg (by decide)]

/-! ## Lemmas about the claim phase -/

theorem reservedFor_isUsed {oid : String} {c : Card} (h : reservedFor oid c = true) :
    c.isUsed = false := by
  unfold reservedFor at h
  simp only [Bool.and_eq_true, Bool.not_eq_true'] at h
  exact h.2

theorem eligibleAvailable_isUsed {pid : String} {now : Nat} {c : Card}
    (h : eligibleAvailable pid now c = true) : c.isUsed = false := by
  unfold eligibleAvailable at h
  simp only [Bool.and_eq_true, Bool.not_eq_true'] at h
  exact h.1.2

theorem eligibleLegacy_isUsed {pid : String} {c : Card}
    (h : eligibleLegacy pid c = true) : c.isUsed = false := by
  unfold eligibleLegacy at h
  simp only [Bool.and_eq_true, Bool.not_eq_true'] at h
  exact h.2

theorem claimReservedCards_key_mem {cards : List Card} {oid : String} {now : Nat}
    {k : String} (h : (claimReservedCards cards oid now).2 = some k) :
    ∃ c ∈ cards, reservedFor oid c = true ∧ c.cardKey = k := by
  unfold claimReservedCards at h
  simp only [List.head?_map] at h
  obtain ⟨c, hc, hk⟩ := Option.map_eq_some'.mp h
  have hmem := List.mem_of_mem_head? hc
  exact ⟨c, (List.mem_filter.mp hmem).1, (List.mem_filter.mp hmem).2, hk⟩

theorem claimReservedCards_key_none {cards : List Card} {oid : String} {now : Nat}
    (h : (claimReservedCards cards oid now).2 = none) :
    claimReservedCards cards oid now = (cards, none) := by
  have h2 : cards.filter (reservedFor oid) = [] := by
    unfold claimReservedCards at h
    simpa [List.head?_map, Option.map_eq_none', List.head?_eq_none_iff] using h
  have hall := List.filter_eq_nil_iff.mp h2
  unfold claimReservedCards
  rw [h2, map_eq_self_of _ _ (fun c hc => if_neg (by simpa using hall c hc))]
  rfl

theorem claimAvailableCard_none (cards : List Card) (pred : Card → Bool) (now : Nat)
    (b : Bool) (h : cards.find? pred = none) :
    claimAvailableCard cards pred now b = (cards, none) := by
  unfold claimAvailableCard
  rw [h]

theorem claimAvailableCard_some (cards : List Card) (pred : Card → Bool) (now : Nat)
    (b : Bool) (c : Card) (h : cards.find? pred = some c) :
    claimAvailableCard cards pred now b =
      (cards.map (fun c2 => if c2.id = c.id then
        (if b then
          { c2 with isUsed := true, usedAt := some now,
                    reservedOrderId := none, reservedAt := none }
         else
          { c2 with isUsed := true, usedAt := some now }) else c2),
       some c.cardKey) := by
  unfold claimAvailableCard
  rw [h]

/-- Case analysis of the whole claim phase, assuming every card key in the
store is nonempty: either some previously-available card's key is claimed
(and the key is truthy), or nothing is claimed and the cards table is
returned untouched. -/
theorem claimPhase_cases (db : DB) (oid pid : String) (now : Nat)
    (hkeys : ∀ c ∈ db.cards, c.cardKey ≠ "") :
    (optStrTruthy (claimPhase db oid pid now).2 = true ∧
      ∃ k, (claimPhase db oid pid now).2 = some k ∧
        ∃ c ∈ db.cards, c.isUsed = false ∧ c.cardKey = k) ∨
    claimPhase db oid pid now = (db.cards, none) := by
  by_cases hres : db.supportsReservation = true
  · cases hk1 : (claimReservedCards db.cards oid now).2 with
    | some k =>
      obtain ⟨c, hcmem, hcres, hck⟩ := claimReservedCards_key_mem hk1
      have hkne : k ≠ "" := hck ▸ hkeys c hcmem
      have htr : optStrTruthy (claimReservedCards db.cards oid now).2 = true := by
        rw [hk1]; simp [optStrTruthy, hkne]
      have hphase : claimPhase db oid pid now = claimReservedCards db.cards oid now := by
        unfold claimPhase
        simp only [hres, if_true]
        rw [if_pos htr]
      exact Or.inl ⟨by rw [hphase]; exact htr, k, by rw [hphase]; exact hk1,
        c, hcmem, reservedFor_isUsed hcres, hck⟩
    | none =>
      have hstep1 : claimReservedCards db.cards oid now = (db.cards, none) :=
        claimReservedCards_key_none hk1
      have hphase : claimPhase db oid pid now =
          claimAvailableCard db.cards (eligibleAvailable pid now) now true := by
        unfold claimPhase
        simp only [hres, if_true]
        rw [if_neg (by rw [hk1]; simp [optStrTruthy]), hstep1]
      cases hfind2 : db.cards.find? (eligibleAvailable pid now) with
      | none =>
        exact Or.inr (by rw [hphase, claimAvailableCard_none _ _ _ _ hfind2])
      | some c =>
        have hmem := List.mem_of_find?_eq_some hfind2
        have hpred := List.find?_some hfind2
        have hkne : c.cardKey ≠ "" := hkeys c hmem
        have h2 : (claimAvailableCard db.cards (eligibleAvailable pid now) now true).2 =
            some c.cardKey := by
          unfold claimAvailableCard; rw [hfind2]
        refine Or.inl ⟨?_, c.cardKey, by rw [hphase]; exact h2,
          c, hmem, eligibleAvailable_isUsed hpred, rfl⟩
        rw [hphase, h2]
        simp [optStrTruthy, hkne]
  · have hres' : db.supportsReservation = false := Bool.not_eq_true _ ▸ by
      simpa using hres
    have hphase : claimPhase db oid pid now =
        claimAvailableCard db.cards (eligibleLegacy pid) now false := by
      unfold claimPhase
      simp only [hres', Bool.false_eq_true, if_false]
      rw [if_neg (by simp [optStrTruthy])]
    cases hfind2 : db.cards.find? (eligibleLegacy pid) with
    | none =>
      exact Or.inr (by rw [hphase, claimAvailableCard_none _ _ _ _ hfind2])
    | some c =>
      have hmem := List.mem_of_find?_eq_some hfind2
      have hpred := List.find?_some hfind2
      have hkne : c.cardKey ≠ "" := hkeys c hmem
      have h2 : (claimAvailableCard db.cards (eligibleLegacy pid) now false).2 =
          some c.cardKey := by
        unfold claimAvailableCard; rw [hfind2]
      refine Or.inl ⟨?_, c.cardKey, by rw [hphase]; exact h2,
        c, hmem, eligibleLegacy_isUsed hpred, rfl⟩
      rw [hphase, h2]
      simp [optStrTruthy, hkne]

/-! ## C1 — pending/cancelled orders transition to delivered or paid, then idempotence -/

/-- C1: for every order in status pending or cancelled (with no card key
yet, and nonempty card keys in stock), `fulfill` with a matching amount
succeeds with `processed` and moves the order to exactly one of:
`delivered` with a non-null `cardKey` naming a previously-available card and
`paidAt`/`deliveredAt`/`tradeNo` set, or `paid` with `cardKey` left null,
`paidAt`/`tradeNo` set and the cards table untouched; a subsequent call with
the same arguments returns `alreadyProcessed` and changes no state. -/
theorem fulfill_pending_dichotomy (db : DB) (oid : String) (paid : ℚ) (tno : String)
    (now now2 : Nat) (o : Order)
    (hfind : findOrder db.orders oid = some o)
    (hstat : o.status = .pending ∨ o.status = .cancelled)
    (hamt : ¬(|paid - o.amount| > 1/100))
    (hck : o.cardKey = none)
    (hkeys : ∀ c ∈ db.cards, c.cardKey ≠ "") :
    ∃ db' o', processOrderFulfillment db oid paid tno now = (db', .ok .processed) ∧
      findOrder db'.orders oid = some o' ∧
      (((∃ k, o'.cardKey = some k ∧ ∃ c ∈ db.cards, c.isUsed = false ∧ c.cardKey = k) ∧
        o'.status = .delivered ∧ o'.paidAt = some now ∧ o'.deliveredAt = some now ∧
        o'.tradeNo = some tno) ∨
       (o'.status = .paid ∧ o'.cardKey = none ∧ o'.paidAt = some now ∧
        o'.tradeNo = some tno ∧ db'.cards = db.cards)) ∧
      processOrderFulfillment db' oid paid tno now2 = (db', .ok .alreadyProcessed) := by
  have hrun : processOrderFulfillment db oid paid tno now =
      (fulfillTransaction db oid tno now o.productId, .ok .processed) := by
    rw [processOrderFulfillment_found db oid paid tno now o hfind, if_neg hamt, if_pos hstat]
  rcases claimPhase_cases db oid o.productId now hkeys with
    ⟨htr, k, hk, c, hcmem, hcu, hckey⟩ | hnone
  · -- a card was claimed: delivered branch
    have htx : fulfillTransaction db oid tno now o.productId =
        { db with
            orders := updateOrders db.orders oid (fun o2 =>
              { o2 with status := .delivered, paidAt := some now,
                        deliveredAt := some now, tradeNo := some tno,
                        cardKey := (claimPhase db oid o.productId now).2 }),
            cards := (claimPhase db oid o.productId now).1 } := by
      simp only [fulfillTransaction]
      rw [if_pos htr]
    have hfind' : findOrder (fulfillTransaction db oid tno now o.productId).orders oid =
        some { o with status := .delivered, paidAt := some now, deliveredAt := some now,
                      tradeNo := some tno,
                      cardKey := (claimPhase db oid o.productId now).2 } := by
      rw [htx]
      show findOrder (updateOrders db.orders oid _) oid = _
      rw [findOrder_updateOrders_self db.orders oid
        (fun o2 => { o2 with status := .delivered, paidAt := some now,
                             deliveredAt := some now, tradeNo := some tno,
                             cardKey := (claimPhase db oid o.productId now).2 })
        (fun _ => rfl), hfind]
      rfl
    refine ⟨_, _, hrun, hfind', ?_, ?_⟩
    · exact Or.inl ⟨⟨k, by simpa using hk, c, hcmem, hcu, hckey⟩, rfl, rfl, rfl, rfl⟩
    · exact fulfill_alreadyProcessed _ _ _ _ _ _ hfind' hamt
        (by rintro (h | h) <;> exact OrderStatus.noConfusion h)
  · -- no card available: paid branch
    have hnt : ¬(optStrTruthy (claimPhase db oid o.productId now).2 = true) := by
      rw [hnone]
      simp [optStrTruthy]
    have htx : fulfillTransaction db oid tno now o.productId =
        { db with
            orders := updateOrders db.orders oid (fun o2 =>
              { o2 with status := .paid, paidAt := some now, tradeNo := some tno }),
            cards := (claimPhase db oid o.productId now).1 } := by
      simp only [fulfillTransaction]
      rw [if_neg hnt]
    have hfind' : findOrder (fulfillTransaction db oid tno now o.productId).orders oid =
        some { o with status := .paid, paidAt := some now, tradeNo := some tno } := by
      rw [htx]
      show findOrder (updateOrders db.orders oid _) oid = _
      rw [findOrder_updateOrders_self db.orders oid
        (fun o2 => { o2 with status := .paid, paidAt := some now, tradeNo := some tno })
        (fun _ => rfl), hfind]
      rfl
    refine ⟨_, _, hrun, hfind', ?_, ?_⟩
    · refine Or.inr ⟨rfl, hck, rfl, rfl, ?_⟩
      rw [htx, hnone]
    · exact fulfill_alreadyProcessed _ _ _ _ _ _ hfind' hamt
        (by rintro (h | h) <;> exact OrderStatus.noConfusion h)

/-- Witness for C1 on a concrete store with one pending order and one
available card: the call delivers and the repeated call is a no-op. -/
theorem fulfill_pending_dichotomy_witness :
    ∃ db' o', processOrderFulfillment dbA "O1" (999/100) "T1" 0 = (db', .ok .processed) ∧
      findOrder db'.orders "O1" = some o' ∧
      (((∃ k, o'.cardKey = some k ∧ ∃ c ∈ dbA.cards, c.isUsed = false ∧ c.cardKey = k) ∧
        o'.status = .delivered ∧ o'.paidAt = some 0 ∧ o'.deliveredAt = some 0 ∧
        o'.tradeNo = some "T1") ∨
       (o'.status = .paid ∧ o'.cardKey = none ∧ o'.paidAt = some 0 ∧
        o'.tradeNo = some "T1" ∧ db'.cards = dbA.cards)) ∧
      processOrderFulfillment db' "O1" (999/100) "T1" 1 = (db', .ok .alreadyProcessed) :=
  fulfill_pending_dichotomy dbA "O1" (999/100) "T1" 0 1 oA rfl (Or.inl rfl)
    (by rw [show (999:ℚ)/100 - oA.amount = 0 by norm_num [oA], abs_zero]; norm_num)
    rfl (by decide)

/-! ## Lemmas about the compensator -/

theorem findUser_update_self (l : List LoginUser) (uid : String) (f : LoginUser → LoginUser)
    (hf : ∀ u, (f u).userId = u.userId) :
    findUser (l.map (fun u => if u.userId = uid then f u else u)) uid =
      (findUser l uid).map f := by
  induction l with
  | nil => rfl
  | cons a t ih =>
    by_cases h : a.userId = uid
    · simp [findUser, List.find?_cons, h, hf]
    · simp only [List.map_cons, if_neg h]
      simp only [findUser, List.find?_cons, h, decide_False] at ih ⊢
      exact ih

/-- Unfolding lemma: `markOrderRefunded` by an authorized admin on a found
order. -/
theorem markOrderRefunded_found (db : DB) (oid : String) (b1 b2 : Bool) (now : Nat)
    (o : Order) (hfind : findOrder db.orders oid = some o) :
    markOrderRefunded db oid true b1 b2 now =
      ({ db with
          orders := updateOrders db.orders oid (fun o2 => { o2 with status := .refunded }),
          cards :=
            match o.cardKey with
            | some ck =>
              if ck ≠ "" ∧ b1 = false then
                db.cards.map (fun c =>
                  if c.productId = o.productId ∧ c.cardKey = ck then
                    { c with isUsed := false, usedAt := none } else c)
              else db.cards
            | none => db.cards,
          loginUsers :=
            match o.userId with
            | some uid =>
              if uid ≠ "" ∧ 0 < o.pointsUsed then
                db.loginUsers.map (fun u => if u.userId = uid then
                  { u with points := u.points + o.pointsUsed } else u)
              else db.loginUsers
            | none => db.loginUsers,
          refundRequests :=
            if b2 then db.refundRequests
            else db.refundRequests.map (fun r => if r.orderId = oid then
              { r with status := "processed", processedAt := some now,
                       updatedAt := some now } else r) }, .ok ()) := by
  unfold markOrderRefunded
  rw [hfind]
  exact rfl

/-! ## C7 — compensation credits points, sets refunded, returns the card -/

/-- C7: a single `markOrderRefunded` call on an order with
`pointsUsed = P > 0` and a (truthy) `userId` increases that user's points by
exactly P (an additive credit), sets the order's status to `refunded`, and —
when the order holds a (truthy) `cardKey` — flips every card matching the
order's `productId` and `cardKey` back to `isUsed = false`, `usedAt = null`. -/
theorem compensate_refunds_points (db : DB) (oid : String) (b2 : Bool) (now : Nat)
    (o : Order) (u : String) (usr : LoginUser)
    (hfind : findOrder db.orders oid = some o)
    (huid : o.userId = some u) (hune : u ≠ "") (hp : 0 < o.pointsUsed)
    (husr : findUser db.loginUsers u = some usr) :
    ∃ db', markOrderRefunded db oid true false b2 now = (db', .ok ()) ∧
      findUser db'.loginUsers u = some { usr with points := usr.points + o.pointsUsed } ∧
      findOrder db'.orders oid = some { o with status := .refunded } ∧
      (∀ ck, o.cardKey = some ck → ck ≠ "" →
        ∀ c2 ∈ db'.cards, c2.productId = o.productId → c2.cardKey = ck →
          c2.isUsed = false ∧ c2.usedAt = none) := by
  refine ⟨_, markOrderRefunded_found db oid false b2 now o hfind, ?_, ?_, ?_⟩
  · dsimp only
    simp only [huid]
    rw [if_pos ⟨hune, hp⟩,
      findUser_update_self db.loginUsers u
        (fun u2 => { u2 with points := u2.points + o.pointsUsed }) (fun _ => rfl),
      husr]
    rfl
  · dsimp only
    rw [findOrder_updateOrders_self db.orders oid
      (fun o2 => { o2 with status := .refunded }) (fun _ => rfl), hfind]
    rfl
  · intro ck hck hckne c2 hmem hprod hkey
    dsimp only at hmem
    simp only [hck] at hmem
    rw [if_pos ⟨hckne, trivial⟩] at hmem
    obtain ⟨c, hc, hceq⟩ := List.mem_map.mp hmem
    by_cases hmatch : c.productId = o.productId ∧ c.cardKey = ck
    · rw [if_pos hmatch] at hceq
      rw [← hceq]
      exact ⟨rfl, rfl⟩
    · rw [if_neg hmatch] at hceq
      subst hceq
      exact absurd ⟨hprod, hkey⟩ hmatch

/-- Witness for C7: a delivered order with 5 points used and card "K7";
compensation credits 10 ↦ 15, refunds the order and frees the card. -/
theorem compensate_refunds_points_witness :
    ∃ db', markOrderRefunded dbD "O7" true false false 9 = (db', .ok ()) ∧
      findUser db'.loginUsers "U7" = some { userId := "U7", points := 15 } ∧
      findOrder db'.orders "O7" = some { oD with status := .refunded } ∧
      (∀ ck, oD.cardKey = some ck → ck ≠ "" →
        ∀ c2 ∈ db'.cards, c2.productId = oD.productId → c2.cardKey = ck →
          c2.isUsed = false ∧ c2.usedAt = none) :=
  compensate_refunds_points dbD "O7" false 9 oD "U7" ⟨"U7", 10⟩ rfl rfl
    (by decide) (by decide) rfl

/-! ## C8 — best-effort steps never block the refund -/

/-- C8: whatever happens to the two best-effort steps (the card-return
update and the refund-request update, each of which may throw — `b1`, `b2` —
or simply match no row), `markOrderRefunded` still returns success, still
sets the order's status to `refunded`, and still credits the user's points. -/
theorem compensate_best_effort_commits (db : DB) (oid : String) (b1 b2 : Bool)
    (now : Nat) (o : Order) (hfind : findOrder db.orders oid = some o) :
    ∃ db', markOrderRefunded db oid true b1 b2 now = (db', .ok ()) ∧
      findOrder db'.orders oid = some { o with status := .refunded } ∧
      (∀ u usr, o.userId = some u → u ≠ "" → 0 < o.pointsUsed →
        findUser db.loginUsers u = some usr →
        findUser db'.loginUsers u = some { usr with points := usr.points + o.pointsUsed }) := by
  refine ⟨_, markOrderRefunded_found db oid b1 b2 now o hfind, ?_, ?_⟩
  · dsimp only
    rw [findOrder_updateOrders_self db.orders oid
      (fun o2 => { o2 with status := .refunded }) (fun _ => rfl), hfind]
    rfl
  · intro u usr huid hune hp husr
    dsimp only
    simp only [huid]
    rw [if_pos ⟨hune, hp⟩,
      findUser_update_self db.loginUsers u
        (fun u2 => { u2 with points := u2.points + o.pointsUsed }) (fun _ => rfl),
      husr]
    rfl

/-- Witness for C8: the order's card row no longer exists and both
best-effort steps throw; the refund still commits and credits points. -/
theorem compensate_best_effort_commits_witness :
    ∃ db', markOrderRefunded dbE "O8" true true true 9 = (db', .ok ()) ∧
      findOrder db'.orders "O8" = some { oE with status := .refunded } ∧
      (∀ u usr, oE.userId = some u → u ≠ "" → 0 < oE.pointsUsed →
        findUser dbE.loginUsers u = some usr →
        findUser db'.loginUsers u = some { usr with points := usr.points + oE.pointsUsed }) :=
  compensate_best_effort_commits dbE "O8" true true 9 oE rfl

/-! ## C2 — the cardKey/delivered invariant (corrected) -/

theorem optStrTruthy_true {x : Option String} (h : optStrTruthy x = true) :
    ∃ k, x = some k ∧ k ≠ "" := by
  cases x with
  | none => simp [optStrTruthy] at h
  | some s => exact ⟨s, rfl, by simpa [optStrTruthy] using h⟩

theorem mem_eq_of_findOrder (l : List Order) (oid : String) (o o2 : Order)
    (hids : (l.map Order.orderId).Nodup)
    (hfind : findOrder l oid = some o) (hmem : o2 ∈ l) (hid : o2.orderId = oid) :
    o2 = o := by
  induction l with
  | nil => cases hmem
  | cons a t ih =>
    by_cases ha : a.orderId = oid
    · have hoa : o = a := by
        have : findOrder (a :: t) oid = some a := by
          simp [findOrder, List.find?_cons, ha]
        rw [this] at hfind
        exact (Option.some_inj.mp hfind).symm
      rcases List.mem_cons.mp hmem with h | h
      · rw [h, hoa]
      · exfalso
        have : o2.orderId ∈ t.map Order.orderId := List.mem_map_of_mem _ h
        rw [hid, ← ha] at this
        exact (List.nodup_cons.mp hids).1 this
    · have hft : findOrder t oid = some o := by
        simpa [findOrder, List.find?_cons, ha] using hfind
      rcases List.mem_cons.mp hmem with h | h
      · exact absurd (h ▸ hid) ha
      · exact ih (List.nodup_cons.mp hids).2 hft h

/-- C2 counterexample: a store satisfying the spec's iff-invariant,
whose compensation step produces an order with `status = refunded` but a
still-non-null `cardKey` — `markOrderRefunded` never clears the order's
`cardKey`, so the iff-invariant is not preserved. -/
theorem compensate_breaks_cardKey_iff_cex :
    (∀ o ∈ dbD.orders, cardKeyIffDelivered o) ∧
    (markOrderRefunded dbD "O7" true false false 9).2 = .ok () ∧
    ¬ (∀ o ∈ (markOrderRefunded dbD "O7" true false false 9).1.orders,
        cardKeyIffDelivered o) := by
  refine ⟨by decide, by decide, by decide⟩

/-- C2 amended: the invariant that every reachable state actually
satisfies is `cardKeyInv`: delivered orders hold a card key, and an order
holding a card key is delivered *or refunded*.  Every `fulfill` or
`compensate` step from a store of unique order ids satisfying it yields a
store satisfying it (compensation on a delivered order keeps the key and
moves the status to refunded, which the amended invariant allows). -/
theorem step_preserves_cardKeyInv (db db' : DB)
    (hids : (db.orders.map Order.orderId).Nodup)
    (hinv : ∀ o ∈ db.orders, cardKeyInv o)
    (hstep : reachableStep db db') :
    ∀ o ∈ db'.orders, cardKeyInv o := by
  rcases hstep with ⟨oid, paid, tno, now, r, heq⟩ | ⟨oid, adm, b1, b2, now, r, heq⟩
  · -- a fulfillment step
    cases hfo : findOrder db.orders oid with
    | none =>
      have hdb : db = db' := by
        unfold processOrderFulfillment at heq
        rw [hfo] at heq
        exact congrArg Prod.fst heq
      rw [← hdb]; exact hinv
    | some o =>
      rw [processOrderFulfillment_found db oid paid tno now o hfo] at heq
      by_cases hamt : |paid - o.amount| > 1/100
      · rw [if_pos hamt] at heq
        have hdb : db = db' := congrArg Prod.fst heq
        rw [← hdb]; exact hinv
      · rw [if_neg hamt] at heq
        by_cases hstat : o.status = .pending ∨ o.status = .cancelled
        · rw [if_pos hstat] at heq
          have hdb : fulfillTransaction db oid tno now o.productId = db' :=
            congrArg Prod.fst heq
          rw [← hdb]
          by_cases htr : optStrTruthy (claimPhase db oid o.productId now).2 = true
          · -- delivered update: cardKey is set to a non-null key
            obtain ⟨k, hk, -⟩ := optStrTruthy_true htr
            intro o2' hmem
            have : (fulfillTransaction db oid tno now o.productId).orders =
                updateOrders db.orders oid (fun o2 =>
                  { o2 with status := .delivered, paidAt := some now,
                            deliveredAt := some now, tradeNo := some tno,
                            cardKey := (claimPhase db oid o.productId now).2 }) := by
              simp only [fulfillTransaction]
              rw [if_pos htr]
            rw [this] at hmem
            obtain ⟨o2, ho2, ho2'⟩ := List.mem_map.mp hmem
            by_cases hido : o2.orderId = oid
            · rw [if_pos hido] at ho2'
              rw [← ho2']
              exact ⟨fun _ => by simp [hk], fun _ => Or.inl rfl⟩
            · rw [if_neg hido] at ho2'
              rw [← ho2']
              exact hinv o2 ho2
          · -- paid update: the found order had no cardKey, and keeps none
            intro o2' hmem
            have : (fulfillTransaction db oid tno now o.productId).orders =
                updateOrders db.orders oid (fun o2 =>
                  { o2 with status := .paid, paidAt := some now,
                            tradeNo := some tno }) := by
              simp only [fulfillTransaction]
              rw [if_neg htr]
            rw [this] at hmem
            obtain ⟨o2, ho2, ho2'⟩ := List.mem_map.mp hmem
            by_cases hido : o2.orderId = oid
            · rw [if_pos hido] at ho2'
              have ho2o : o2 = o := mem_eq_of_findOrder db.orders oid o o2 hids hfo ho2 hido
              have hckn : o2.cardKey = none := by
                by_contra hne
                rcases (hinv o2 ho2).2 hne with hd | hd
                · rw [ho2o] at hd
                  rcases hstat with hs | hs <;> rw [hs] at hd <;> exact OrderStatus.noConfusion hd
                · rw [ho2o] at hd
                  rcases hstat with hs | hs <;> rw [hs] at hd <;> exact OrderStatus.noConfusion hd
              rw [← ho2']
              refine ⟨fun hd => OrderStatus.noConfusion hd, fun hne => ?_⟩
              exact absurd hckn (by simpa using hne)
            · rw [if_neg hido] at ho2'
              rw [← ho2']
              exact hinv o2 ho2
        · rw [if_neg hstat] at heq
          have hdb : db = db' := congrArg Prod.fst heq
          rw [← hdb]; exact hinv
  · -- a compensation step
    cases adm with
    | false =>
      have hdb : db = db' := by
        unfold markOrderRefunded at heq
        exact congrArg Prod.fst heq
      rw [← hdb]; exact hinv
    | true =>
      cases hfo : findOrder db.orders oid with
      | none =>
        have hdb : db = db' := by
          unfold markOrderRefunded at heq
          rw [hfo] at heq
          exact congrArg Prod.fst heq
        rw [← hdb]; exact hinv
      | some o =>
        rw [markOrderRefunded_found db oid b1 b2 now o hfo] at heq
        have hdb := congrArg Prod.fst heq
        dsimp only at hdb
        rw [← hdb]
        intro o2' hmem
        obtain ⟨o2, ho2, ho2'⟩ := List.mem_map.mp hmem
        by_cases hido : o2.orderId = oid
        · rw [if_pos hido] at ho2'
          rw [← ho2']
          exact ⟨fun hd => OrderStatus.noConfusion hd, fun _ => Or.inr rfl⟩
        · rw [if_neg hido] at ho2'
          rw [← ho2']
          exact hinv o2 ho2

/-- Witness for the amended C2: the order produced by the concrete
compensation step — refunded, card key still set — satisfies the amended
invariant. -/
theorem step_preserves_cardKeyInv_witness :
    cardKeyInv ⟨"O7", "P7", 5, .refunded, some "T7", some "K7", some "U7", 5, some 1, some 1⟩ :=
  step_preserves_cardKeyInv dbD (markOrderRefunded dbD "O7" true false false 9).1
    (by decide) (by decide)
    (Or.inr ⟨"O7", true, false, false, 9, (markOrderRefunded dbD "O7" true false false 9).2, rfl⟩)
    _ (List.Mem.head _)

/-! ## C10 — the reserved-card claim has no limit, no product filter, no freshness check -/

/-- C10: on a fulfillable order, the reserved-card claim step marks as
used *every* unused card whose `reservedOrderId` equals the order — with no
limit of one row, no filter on the order's `productId` and no check of
`reservedAt` freshness — while assigning only the first returned key to the
order. -/
theorem fulfill_reserved_claims_all (db : DB) (oid : String) (paid : ℚ) (tno : String)
    (now : Nat) (o : Order) (k : String)
    (hfind : findOrder db.orders oid = some o)
    (hstat : o.status = .pending ∨ o.status = .cancelled)
    (hamt : ¬(|paid - o.amount| > 1/100))
    (hres : db.supportsReservation = true)
    (hhead : ((db.cards.filter (reservedFor oid)).map (fun c => c.cardKey)).head? = some k)
    (hkne : k ≠ "") :
    ∃ db', processOrderFulfillment db oid paid tno now = (db', .ok .processed) ∧
      db'.cards = db.cards.map (fun c => if reservedFor oid c = true then
        { c with isUsed := true, usedAt := some now,
                 reservedOrderId := none, reservedAt := none } else c) ∧
      (∀ c ∈ db.cards, c.isUsed = false → c.reservedOrderId = some oid →
        { c with isUsed := true, usedAt := some now,
                 reservedOrderId := none, reservedAt := none } ∈ db'.cards) ∧
      (findOrder db'.orders oid).bind Order.cardKey = some k := by
  have hrun : processOrderFulfillment db oid paid tno now =
      (fulfillTransaction db oid tno now o.productId, .ok .processed) := by
    rw [processOrderFulfillment_found db oid paid tno now o hfind, if_neg hamt, if_pos hstat]
  have hk1 : (claimReservedCards db.cards oid now).2 = some k := by
    unfold claimReservedCards
    exact hhead
  have htr : optStrTruthy (claimReservedCards db.cards oid now).2 = true := by
    rw [hk1]
    simp [optStrTruthy, hkne]
  have hphase : claimPhase db oid o.productId now = claimReservedCards db.cards oid now := by
    unfold claimPhase
    simp only [hres, if_true]
    rw [if_pos htr]
  have htr' : optStrTruthy (claimPhase db oid o.productId now).2 = true := by
    rw [hphase]; exact htr
  have htx : fulfillTransaction db oid tno now o.productId =
      { db with
          orders := updateOrders db.orders oid (fun o2 =>
            { o2 with status := .delivered, paidAt := some now,
                      deliveredAt := some now, tradeNo := some tno,
                      cardKey := (claimPhase db oid o.productId now).2 }),
          cards := (claimPhase db oid o.productId now).1 } := by
    simp only [fulfillTransaction]
    rw [if_pos htr']
  have hcards : (fulfillTransaction db oid tno now o.productId).cards =
      db.cards.map (fun c => if reservedFor oid c = true then
        { c with isUsed := true, usedAt := some now,
                 reservedOrderId := none, reservedAt := none } else c) := by
    rw [htx]
    show (claimPhase db oid o.productId now).1 = _
    rw [hphase]
    rfl
  refine ⟨_, hrun, hcards, ?_, ?_⟩
  · intro c hc hcu hcres
    rw [hcards]
    have : (if reservedFor oid c = true then
        { c with isUsed := true, usedAt := some now,
                 reservedOrderId := none, reservedAt := none } else c) =
        { c with isUsed := true, usedAt := some now,
                 reservedOrderId := none, reservedAt := none } := by
      rw [if_pos (by simp [reservedFor, hcres, hcu])]
    rw [← this]
    exact List.mem_map_of_mem _ hc
  · rw [htx]
    show (findOrder (updateOrders db.orders oid _) oid).bind Order.cardKey = some k
    rw [findOrder_updateOrders_self db.orders oid
      (fun o2 => { o2 with status := .delivered, paidAt := some now,
                           deliveredAt := some now, tradeNo := some tno,
                           cardKey := (claimPhase db oid o.productId now).2 })
      (fun _ => rfl), hfind]
    show ((claimPhase db oid o.productId now).2 : Option String) = some k
    rw [hphase]
    exact hk1





/-- Witness for C10: two unused cards reserved for order O9 — one of a
*different* product with a *fresh* reservation — are both consumed by one
fulfillment, and the other product's key "KA" is the one assigned. -/
theorem fulfill_reserved_claims_all_witness :
    ∃ db', processOrderFulfillment dbF "O9" 3 "T9" 101 = (db', .ok .processed) ∧
      db'.cards = dbF.cards.map (fun c => if reservedFor "O9" c = true then
        { c with isUsed := true, usedAt := some 101,
                 reservedOrderId := none, reservedAt := none } else c) ∧
      (∀ c ∈ dbF.cards, c.isUsed = false → c.reservedOrderId = some "O9" →
        { c with isUsed := true, usedAt := some 101,
                 reservedOrderId := none, reservedAt := none } ∈ db'.cards) ∧
      (findOrder db'.orders "O9").bind Order.cardKey = some "KA" :=
  fulfill_reserved_claims_all dbF "O9" 3 "T9" 101 oF "KA" rfl (Or.inl rfl)
    (by rw [show (3:ℚ) - oF.amount = 0 by norm_num [oF], abs_zero]; norm_num)
    rfl (by decide) (by decide)

/-! ## C9 — reservations shield a card from other orders until stale -/

theorem claimReservedCards_no_match (cards : List Card) (oid : String) (now : Nat)
    (h : ∀ c ∈ cards, reservedFor oid c = false) :
    claimReservedCards cards oid now = (cards, none) := by
  apply claimReservedCards_key_none
  unfold claimReservedCards
  simp only [List.head?_map, Option.map_eq_none', List.head?_eq_none_iff]
  exact List.filter_eq_nil_iff.mpr (fun c hc => by simp [h c hc])

theorem ids_after_map (l : List Card) (g : Card → Card) (hg : ∀ x, (g x).id = x.id) :
    (l.map g).map Card.id = l.map Card.id := by
  rw [List.map_map]
  exact List.map_eq_map_iff.mpr (fun x _ => hg x)

/-- If a card matches neither the order's reservation nor the availability
predicate, the reservation-aware claim phase leaves its row untouched. -/
theorem claimPhase_preserves_card (db : DB) (yid pid : String) (now : Nat) (c : Card)
    (hids : (db.cards.map Card.id).Nodup)
    (hc : c ∈ db.cards)
    (hres1 : reservedFor yid c = false)
    (hineli : eligibleAvailable pid now c = false)
    (hres : db.supportsReservation = true) :
    c ∈ (claimPhase db yid pid now).1 := by
  have hg : ∀ x : Card, ((if reservedFor yid x = true then
      { x with isUsed := true, usedAt := some now,
               reservedOrderId := none, reservedAt := none } else x) : Card).id = x.id := by
    intro x
    by_cases h : reservedFor yid x = true <;> simp [h]
  have hc1 : c ∈ (claimReservedCards db.cards yid now).1 := by
    unfold claimReservedCards
    have : (if reservedFor yid c = true then
        { c with isUsed := true, usedAt := some now,
                 reservedOrderId := none, reservedAt := none } else c) = c := if_neg (by simp [hres1])
    rw [← this]
    exact List.mem_map_of_mem _ hc
  have hids1 : ((claimReservedCards db.cards yid now).1.map Card.id).Nodup := by
    unfold claimReservedCards
    rw [ids_after_map _ _ hg]
    exact hids
  unfold claimPhase
  simp only [hres, if_true]
  by_cases htr : optStrTruthy (claimReservedCards db.cards yid now).2 = true
  · rw [if_pos htr]
    exact hc1
  · rw [if_neg htr]
    cases hfind2 : (claimReservedCards db.cards yid now).1.find? (eligibleAvailable pid now) with
    | none =>
      rw [claimAvailableCard_none _ _ _ _ hfind2]
      exact hc1
    | some c0 =>
      rw [claimAvailableCard_some _ _ _ _ _ hfind2]
      have hcne : ¬(c.id = c0.id) := by
        intro hid
        have hc0mem := List.mem_of_find?_eq_some hfind2
        have : c = c0 := List.inj_on_of_nodup_map hids1 hc1 hc0mem hid
        rw [← this] at hfind2
        have := List.find?_some hfind2
        rw [hineli] at this
        exact Bool.false_ne_true this
      have himg : (if c.id = c0.id then
          (if true then
            { c with isUsed := true, usedAt := some now,
                     reservedOrderId := none, reservedAt := none }
           else { c with isUsed := true, usedAt := some now }) else c) = c := if_neg hcne
      rw [← himg]
      exact List.mem_map_of_mem _ hc1

/-- C9: an unused card reserved for order X with a fresh (< 1 minute old)
reservation cannot be claimed by a fulfillment call for any other order — its
row survives untouched; once the reservation is more than 1 minute stale, the
card is claimable by a fulfillment for any eligible order of its product
(here: the order whose availability scan selects it), which delivers with
exactly this card's key and marks the card used. -/
theorem reservation_shields_until_stale (db : DB) (now : Nat) (c : Card) (X : String)
    (t : Nat)
    (hres : db.supportsReservation = true)
    (hids : (db.cards.map Card.id).Nodup)
    (hc : c ∈ db.cards) (hcu : c.isUsed = false)
    (hrid : c.reservedOrderId = some X) (hrat : c.reservedAt = some t) :
    (∀ yid paid tno, yid ≠ X → ¬(t + 60 < now) →
      c ∈ (processOrderFulfillment db yid paid tno now).1.cards) ∧
    (∀ yid paid tno oy, t + 60 < now →
      findOrder db.orders yid = some oy →
      (oy.status = .pending ∨ oy.status = .cancelled) →
      ¬(|paid - oy.amount| > 1/100) →
      (∀ c2 ∈ db.cards, reservedFor yid c2 = false) →
      db.cards.find? (eligibleAvailable oy.productId now) = some c →
      c.cardKey ≠ "" →
      (findOrder (processOrderFulfillment db yid paid tno now).1.orders yid).bind
          Order.cardKey = some c.cardKey ∧
        { c with isUsed := true, usedAt := some now,
                 reservedOrderId := none, reservedAt := none }
          ∈ (processOrderFulfillment db yid paid tno now).1.cards) := by
  constructor
  · intro yid paid tno hyx hfresh
    have hres1 : reservedFor yid c = false := by
      simp [reservedFor, hrid, Ne.symm hyx]
    cases hfo : findOrder db.orders yid with
    | none =>
      unfold processOrderFulfillment
      rw [hfo]
      exact hc
    | some oy =>
      rw [processOrderFulfillment_found db yid paid tno now oy hfo]
      by_cases hamt : |paid - oy.amount| > 1/100
      · rw [if_pos hamt]; exact hc
      · rw [if_neg hamt]
        by_cases hstat : oy.status = .pending ∨ oy.status = .cancelled
        · rw [if_pos hstat]
          show c ∈ (fulfillTransaction db yid tno now oy.productId).cards
          have hcp := claimPhase_preserves_card db yid oy.productId now c hids hc hres1
            (by simp [eligibleAvailable, hrat, hfresh]) hres
          simp only [fulfillTransaction]
          exact hcp
        · rw [if_neg hstat]; exact hc
  · intro yid paid tno oy hstale hfo hstat hamt hnores hfind2 hkne
    have hrun : processOrderFulfillment db yid paid tno now =
        (fulfillTransaction db yid tno now oy.productId, .ok .processed) := by
      rw [processOrderFulfillment_found db yid paid tno now oy hfo, if_neg hamt, if_pos hstat]
    have hstep1 : claimReservedCards db.cards yid now = (db.cards, none) :=
      claimReservedCards_no_match _ _ _ hnores
    have hk1 : (claimReservedCards db.cards yid now).2 = none := by rw [hstep1]
    have hphase : claimPhase db yid oy.productId now =
        claimAvailableCard db.cards (eligibleAvailable oy.productId now) now true := by
      unfold claimPhase
      simp only [hres, if_true]
      rw [if_neg (by rw [hk1]; simp [optStrTruthy]), hstep1]
    have hcc := claimAvailableCard_some db.cards (eligibleAvailable oy.productId now)
      now true c hfind2
    have hkey : (claimPhase db yid oy.productId now).2 = some c.cardKey := by
      rw [hphase, hcc]
    have htr : optStrTruthy (claimPhase db yid oy.productId now).2 = true := by
      rw [hkey]; simp [optStrTruthy, hkne]
    have htx : fulfillTransaction db yid tno now oy.productId =
        { db with
            orders := updateOrders db.orders yid (fun o2 =>
              { o2 with status := .delivered, paidAt := some now,
                        deliveredAt := some now, tradeNo := some tno,
                        cardKey := (claimPhase db yid oy.productId now).2 }),
            cards := (claimPhase db yid oy.productId now).1 } := by
      simp only [fulfillTransaction]
      rw [if_pos htr]
    constructor
    · rw [hrun]
      show (findOrder (fulfillTransaction db yid tno now oy.productId).orders yid).bind
        Order.cardKey = some c.cardKey
      rw [htx]
      show (findOrder (updateOrders db.orders yid _) yid).bind Order.cardKey = some c.cardKey
      rw [findOrder_updateOrders_self db.orders yid
        (fun o2 => { o2 with status := .delivered, paidAt := some now,
                             deliveredAt := some now, tradeNo := some tno,
                             cardKey := (claimPhase db yid oy.productId now).2 })
        (fun _ => rfl), hfo]
      show ((claimPhase db yid oy.productId now).2 : Option String) = some c.cardKey
      exact hkey
    · rw [hrun]
      show _ ∈ (fulfillTransaction db yid tno now oy.productId).cards
      rw [htx]
      show _ ∈ (claimPhase db yid oy.productId now).1
      rw [hphase, hcc]
      have himg : (if c.id = c.id then
          (if true then
            { c with isUsed := true, usedAt := some now,
                     reservedOrderId := none, reservedAt := none }
           else { c with isUsed := true, usedAt := some now }) else c) =
          { c with isUsed := true, usedAt := some now,
                   reservedOrderId := none, reservedAt := none } := by
        rw [if_pos rfl]
        rfl
      rw [← himg]
      exact List.mem_map_of_mem _ hc




/-- Witness for C9: at `now = 120` the reservation made at 100 for order OX
is still fresh, so order OY's fulfillment leaves the card untouched. -/
theorem reservation_shields_until_stale_witness :
    cG ∈ (processOrderFulfillment dbG "OY" 4 "T" 120).1.cards :=
  (reservation_shields_until_stale dbG 120 cG "OX" 100 rfl (by decide) (by decide)
    rfl rfl rfl).1 "OY" 4 "T" (by decide) (by decide)

/-! ## C3 — infrastructure: single-step characterization under a serial schedule -/

theorem filter_after_claim (cards : List Card) (p : Card → Bool) (c : Card)
    (g : Card → Card)
    (hids : (cards.map Card.id).Nodup)
    (hfind : cards.find? p = some c)
    (hgp : p (g c) = false) :
    (cards.map (fun x => if x.id = c.id then g x else x)).filter p =
      (cards.filter p).tail := by
  induction cards with
  | nil => cases hfind
  | cons a rest ih =>
    by_cases hpa : p a = true
    · have hca : c = a := by
        simp only [List.find?_cons, hpa] at hfind
        exact (Option.some_inj.mp hfind).symm
      subst hca
      have hrest : rest.map (fun x => if x.id = c.id then g x else x) = rest := by
        apply map_eq_self_of
        intro x hx
        rw [if_neg]
        intro hxid
        have : c.id ∈ rest.map Card.id := hxid ▸ List.mem_map_of_mem _ hx
        exact (List.nodup_cons.mp hids).1 this
      simp [hrest, List.filter_cons, hgp, hpa]
    · have hfind' : rest.find? p = some c := by
        simpa [List.find?_cons, hpa] using hfind
      have hcrest : c ∈ rest := List.mem_of_find?_eq_some hfind'
      have haid : ¬(a.id = c.id) := by
        intro h
        have : a.id ∈ rest.map Card.id := h ▸ List.mem_map_of_mem _ hcrest
        exact (List.nodup_cons.mp hids).1 this
      have hpa' : p a = false := Bool.not_eq_true _ ▸ by simpa using hpa
      simp only [List.map_cons, if_neg haid, List.filter_cons, hpa']
      exact ih (List.nodup_cons.mp hids).2 hfind'

theorem orderIds_after_update (l : List Order) (oid : String) (f : Order → Order)
    (hf : ∀ o, (f o).orderId = o.orderId) :
    (updateOrders l oid f).map Order.orderId = l.map Order.orderId := by
  unfold updateOrders
  rw [List.map_map]
  apply List.map_eq_map_iff.mpr
  intro x _
  by_cases h : x.orderId = oid <;> simp [h, hf]

theorem claimAvailableCard_some_true (cards : List Card) (pred : Card → Bool)
    (now : Nat) (c : Card) (h : cards.find? pred = some c) :
    claimAvailableCard cards pred now true =
      (cards.map (fun x => if x.id = c.id then
        { x with isUsed := true, usedAt := some now,
                 reservedOrderId := none, reservedAt := none } else x),
       some c.cardKey) := by
  rw [claimAvailableCard_some cards pred now true c h]
  simp only [Prod.mk.injEq]
  refine ⟨List.map_eq_map_iff.mpr (fun x _ => ?_), trivial⟩
  by_cases hx : x.id = c.id <;> simp [hx]

/-- Fulfillment for one order id never changes what `findOrder` sees for a
different order id. -/
theorem findOrder_fulfill_other (db : DB) (oid oid2 : String) (paid : ℚ)
    (tno : String) (now : Nat) (h : oid2 ≠ oid) :
    findOrder (processOrderFulfillment db oid paid tno now).1.orders oid2 =
      findOrder db.orders oid2 := by
  cases hfo : findOrder db.orders oid with
  | none =>
    unfold processOrderFulfillment
    rw [hfo]
  | some o =>
    rw [processOrderFulfillment_found db oid paid tno now o hfo]
    by_cases hamt : |paid - o.amount| > 1/100
    · rw [if_pos hamt]
    · rw [if_neg hamt]
      by_cases hstat : o.status = .pending ∨ o.status = .cancelled
      · rw [if_pos hstat]
        show findOrder (fulfillTransaction db oid tno now o.productId).orders oid2 = _
        simp only [fulfillTransaction]
        by_cases htr : optStrTruthy (claimPhase db oid o.productId now).2 = true
        · rw [if_pos htr]
          exact findOrder_updateOrders_other db.orders oid oid2 _ (fun _ => rfl) h
        · rw [if_neg htr]
          exact findOrder_updateOrders_other db.orders oid oid2 _ (fun _ => rfl) h
      · rw [if_neg hstat]

theorem findOrder_fulfillMany_not_mem (l : List (String × ℚ)) (db : DB)
    (tno : String) (now : Nat) (oid : String) (h : oid ∉ l.map Prod.fst) :
    findOrder (fulfillMany db l tno now).orders oid = findOrder db.orders oid := by
  induction l generalizing db with
  | nil => rfl
  | cons op rest ih =>
    obtain ⟨oid2, paid⟩ := op
    simp only [List.map_cons, List.mem_cons, not_or] at h
    show findOrder (fulfillMany (processOrderFulfillment db oid2 paid tno now).1
      rest tno now).orders oid = _
    rw [ih _ h.2, findOrder_fulfill_other db oid2 oid paid tno now h.1]

/-- Step lemma (stock left): fulfilling a pending order of product `pid` when
the availability scan finds a first eligible card `c` delivers with `c`'s
key, marks exactly that row used, and touches nothing else. -/
theorem fulfill_step_claims_head (db : DB) (oid : String) (paid : ℚ) (tno : String)
    (now : Nat) (o : Order) (c : Card)
    (hres : db.supportsReservation = true)
    (hnores : ∀ c2 ∈ db.cards, reservedFor oid c2 = false)
    (hfind : findOrder db.orders oid = some o)
    (hstat : o.status = .pending ∨ o.status = .cancelled)
    (hamt : ¬(|paid - o.amount| > 1/100))
    (hkne : c.cardKey ≠ "")
    (hfind2 : db.cards.find? (eligibleAvailable o.productId now) = some c) :
    ∃ db', processOrderFulfillment db oid paid tno now = (db', .ok .processed) ∧
      db'.orders = updateOrders db.orders oid (fun o2 =>
        { o2 with status := .delivered, paidAt := some now, deliveredAt := some now,
                  tradeNo := some tno, cardKey := some c.cardKey }) ∧
      db'.cards = db.cards.map (fun x => if x.id = c.id then
        { x with isUsed := true, usedAt := some now,
                 reservedOrderId := none, reservedAt := none } else x) ∧
      db'.loginUsers = db.loginUsers ∧ db'.refundRequests = db.refundRequests ∧
      db'.supportsReservation = db.supportsReservation := by
  have hrun : processOrderFulfillment db oid paid tno now =
      (fulfillTransaction db oid tno now o.productId, .ok .processed) := by
    rw [processOrderFulfillment_found db oid paid tno now o hfind, if_neg hamt, if_pos hstat]
  have hstep1 : claimReservedCards db.cards oid now = (db.cards, none) :=
    claimReservedCards_no_match _ _ _ hnores
  have hk1 : (claimReservedCards db.cards oid now).2 = none := by rw [hstep1]
  have hphase : claimPhase db oid o.productId now =
      claimAvailableCard db.cards (eligibleAvailable o.productId now) now true := by
    unfold claimPhase
    simp only [hres, if_true]
    rw [if_neg (by rw [hk1]; simp [optStrTruthy]), hstep1]
  have hcc := claimAvailableCard_some_true db.cards (eligibleAvailable o.productId now)
    now c hfind2
  have hkey : (claimPhase db oid o.productId now).2 = some c.cardKey := by
    rw [hphase, hcc]
  have htr : optStrTruthy (claimPhase db oid o.productId now).2 = true := by
    rw [hkey]; simp [optStrTruthy, hkne]
  have htx : fulfillTransaction db oid tno now o.productId =
      { db with
          orders := updateOrders db.orders oid (fun o2 =>
            { o2 with status := .delivered, paidAt := some now,
                      deliveredAt := some now, tradeNo := some tno,
                      cardKey := (claimPhase db oid o.productId now).2 }),
          cards := (claimPhase db oid o.productId now).1 } := by
    simp only [fulfillTransaction]
    rw [if_pos htr]
  refine ⟨_, hrun, ?_, ?_, ?_, ?_, ?_⟩
  · rw [htx, hkey]
  · rw [htx]
    show (claimPhase db oid o.productId now).1 = _
    rw [hphase, hcc]
  · rw [htx]
  · rw [htx]
  · rw [htx]

/-- Step lemma (out of stock): fulfilling a pending order of product `pid`
when no card is eligible marks the order paid and leaves all card state
untouched. -/
theorem fulfill_step_no_card (db : DB) (oid : String) (paid : ℚ) (tno : String)
    (now : Nat) (o : Order)
    (hres : db.supportsReservation = true)
    (hnores : ∀ c2 ∈ db.cards, reservedFor oid c2 = false)
    (hfind : findOrder db.orders oid = some o)
    (hstat : o.status = .pending ∨ o.status = .cancelled)
    (hamt : ¬(|paid - o.amount| > 1/100))
    (hnone : db.cards.find? (eligibleAvailable o.productId now) = none) :
    ∃ db', processOrderFulfillment db oid paid tno now = (db', .ok .processed) ∧
      db'.orders = updateOrders db.orders oid (fun o2 =>
        { o2 with status := .paid, paidAt := some now, tradeNo := some tno }) ∧
      db'.cards = db.cards ∧
      db'.loginUsers = db.loginUsers ∧ db'.refundRequests = db.refundRequests ∧
      db'.supportsReservation = db.supportsReservation := by
  have hrun : processOrderFulfillment db oid paid tno now =
      (fulfillTransaction db oid tno now o.productId, .ok .processed) := by
    rw [processOrderFulfillment_found db oid paid tno now o hfind, if_neg hamt, if_pos hstat]
  have hstep1 : claimReservedCards db.cards oid now = (db.cards, none) :=
    claimReservedCards_no_match _ _ _ hnores
  have hk1 : (claimReservedCards db.cards oid now).2 = none := by rw [hstep1]
  have hphase : claimPhase db oid o.productId now = (db.cards, none) := by
    unfold claimPhase
    simp only [hres, if_true]
    rw [if_neg (by rw [hk1]; simp [optStrTruthy]), hstep1,
      claimAvailableCard_none _ _ _ _ hnone]
  have htr : ¬(optStrTruthy (claimPhase db oid o.productId now).2 = true) := by
    rw [hphase]
    simp [optStrTruthy]
  have htx : fulfillTransaction db oid tno now o.productId =
      { db with
          orders := updateOrders db.orders oid (fun o2 =>
            { o2 with status := .paid, paidAt := some now, tradeNo := some tno }),
          cards := (claimPhase db oid o.productId now).1 } := by
    simp only [fulfillTransaction]
    rw [if_neg htr]
  refine ⟨_, hrun, ?_, ?_, ?_, ?_, ?_⟩
  · rw [htx]
  · rw [htx]
    show (claimPhase db oid o.productId now).1 = _
    rw [hphase]
  · rw [htx]
  · rw [htx]
  · rw [htx]

/-- Batch characterization: executing one fulfillment per order, in any
serial order realised by the database, delivers the first `min N M` orders
of the schedule the successive eligible cards' keys, and marks the rest
paid with no key. -/
theorem fulfillMany_dichotomy (l : List (String × ℚ)) (db : DB) (P tno : String)
    (now : Nat)
    (hres : db.supportsReservation = true)
    (hids : (db.cards.map Card.id).Nodup)
    (hkeys : ∀ c ∈ db.cards, c.cardKey ≠ "")
    (hnores : ∀ c ∈ db.cards, c.reservedOrderId = none)
    (horders : (db.orders.map Order.orderId).Nodup)
    (hl : (l.map Prod.fst).Nodup)
    (hok : ∀ op ∈ l, ∃ o, findOrder db.orders op.1 = some o ∧ o.status = .pending ∧
      o.productId = P ∧ o.cardKey = none ∧ ¬(|op.2 - o.amount| > 1/100)) :
    l.map (fun op => (findOrder (fulfillMany db l tno now).orders op.1).map Order.status) =
      List.replicate (min l.length (db.cards.filter (eligibleAvailable P now)).length)
        (some OrderStatus.delivered) ++
      List.replicate (l.length - (db.cards.filter (eligibleAvailable P now)).length)
        (some OrderStatus.paid) ∧
    l.map (fun op => (findOrder (fulfillMany db l tno now).orders op.1).bind Order.cardKey) =
      ((((db.cards.filter (eligibleAvailable P now)).map (fun c => c.cardKey)).take
        l.length).map some) ++
      List.replicate (l.length - (db.cards.filter (eligibleAvailable P now)).length) none := by
  induction l generalizing db with
  | nil => constructor <;> simp
  | cons op rest ih =>
    obtain ⟨oid, paid⟩ := op
    obtain ⟨o, hfo, hostat, hopid, hock, hoamt⟩ := hok (oid, paid) (List.mem_cons_self _ _)
    simp only [List.map_cons] at hl
    have hoid_notin : oid ∉ rest.map Prod.fst := (List.nodup_cons.mp hl).1
    have hrest_nodup : (rest.map Prod.fst).Nodup := (List.nodup_cons.mp hl).2
    cases hE : db.cards.filter (eligibleAvailable P now) with
    | nil =>
      have hnone : db.cards.find? (eligibleAvailable o.productId now) = none := by
        rw [hopid, ← List.filter_head?, hE]
        rfl
      obtain ⟨db1, hrun, hord1, hcards1, husers1, hreq1, hres1⟩ :=
        fulfill_step_no_card db oid paid tno now o hres
          (fun c2 hc2 => by simp [reservedFor, hnores c2 hc2]) hfo (Or.inl hostat)
          hoamt hnone
      have hfm : fulfillMany db ((oid, paid) :: rest) tno now =
          fulfillMany db1 rest tno now := by
        show fulfillMany (processOrderFulfillment db oid paid tno now).1 rest tno now = _
        rw [hrun]
      have hhead_find : findOrder (fulfillMany db1 rest tno now).orders oid =
          some { o with status := .paid, paidAt := some now, tradeNo := some tno } := by
        rw [findOrder_fulfillMany_not_mem rest db1 tno now oid hoid_notin, hord1,
          findOrder_updateOrders_self db.orders oid
            (fun o2 => { o2 with status := .paid, paidAt := some now, tradeNo := some tno })
            (fun _ => rfl), hfo]
        rfl
      have hres1' : db1.supportsReservation = true := by rw [hres1]; exact hres
      have hids1 : (db1.cards.map Card.id).Nodup := by rw [hcards1]; exact hids
      have hkeys1 : ∀ c2 ∈ db1.cards, c2.cardKey ≠ "" := by rw [hcards1]; exact hkeys
      have hnores1 : ∀ c2 ∈ db1.cards, c2.reservedOrderId = none := by
        rw [hcards1]; exact hnores
      have horders1 : (db1.orders.map Order.orderId).Nodup := by
        rw [hord1, orderIds_after_update db.orders oid _ (by intro x; rfl)]
        exact horders
      have hok1 : ∀ op2 ∈ rest, ∃ o2, findOrder db1.orders op2.1 = some o2 ∧
          o2.status = .pending ∧ o2.productId = P ∧ o2.cardKey = none ∧
          ¬(|op2.2 - o2.amount| > 1/100) := by
        intro op2 hop2
        obtain ⟨o2, h1, h2, h3, h4, h5⟩ := hok op2 (List.mem_cons_of_mem _ hop2)
        have hne : op2.1 ≠ oid := by
          intro h
          exact hoid_notin (h ▸ List.mem_map_of_mem _ hop2)
        refine ⟨o2, ?_, h2, h3, h4, h5⟩
        rw [hord1, findOrder_updateOrders_other db.orders oid op2.1 _ (by intro x; rfl) hne]
        exact h1
      have hE1 : db1.cards.filter (eligibleAvailable P now) = [] := by
        rw [hcards1]; exact hE
      obtain ⟨ihs, ihk⟩ := ih db1 hres1' hids1 hkeys1 hnores1 horders1 hrest_nodup hok1
      rw [hE1] at ihs ihk
      constructor
      · rw [hfm]
        simp only [List.map_cons, hhead_find, ihs, hE]
        simp [List.replicate_succ]
      · rw [hfm]
        simp only [List.map_cons, hhead_find, ihk, hE]
        simp [hock, List.replicate_succ]
    | cons c E' =>
      have hcmem : c ∈ db.cards := by
        have hcf : c ∈ db.cards.filter (eligibleAvailable P now) := by
          rw [hE]; exact List.mem_cons_self _ _
        exact (List.mem_filter.mp hcf).1
      have hfind2 : db.cards.find? (eligibleAvailable o.productId now) = some c := by
        rw [hopid, ← List.filter_head?, hE]
        rfl
      obtain ⟨db1, hrun, hord1, hcards1, husers1, hreq1, hres1⟩ :=
        fulfill_step_claims_head db oid paid tno now o c hres
          (fun c2 hc2 => by simp [reservedFor, hnores c2 hc2]) hfo (Or.inl hostat)
          hoamt (hkeys c hcmem) hfind2
      have hfm : fulfillMany db ((oid, paid) :: rest) tno now =
          fulfillMany db1 rest tno now := by
        show fulfillMany (processOrderFulfillment db oid paid tno now).1 rest tno now = _
        rw [hrun]
      have hhead_find : findOrder (fulfillMany db1 rest tno now).orders oid =
          some { o with status := .delivered, paidAt := some now, deliveredAt := some now,
                        tradeNo := some tno, cardKey := some c.cardKey } := by
        rw [findOrder_fulfillMany_not_mem rest db1 tno now oid hoid_notin, hord1,
          findOrder_updateOrders_self db.orders oid
            (fun o2 => { o2 with status := .delivered, paidAt := some now,
                                 deliveredAt := some now, tradeNo := some tno,
                                 cardKey := some c.cardKey })
            (fun _ => rfl), hfo]
        rfl
      have hres1' : db1.supportsReservation = true := by rw [hres1]; exact hres
      have hids1 : (db1.cards.map Card.id).Nodup := by
        rw [hcards1, ids_after_map db.cards _ (fun x => by
          by_cases hx : x.id = c.id <;> simp [hx])]
        exact hids
      have hkeys1 : ∀ c2 ∈ db1.cards, c2.cardKey ≠ "" := by
        rw [hcards1]
        intro c2 hc2
        obtain ⟨x, hx, hxeq⟩ := List.mem_map.mp hc2
        have : c2.cardKey = x.cardKey := by
          rw [← hxeq]
          by_cases hxid : x.id = c.id <;> simp [hxid]
        rw [this]
        exact hkeys x hx
      have hnores1 : ∀ c2 ∈ db1.cards, c2.reservedOrderId = none := by
        rw [hcards1]
        intro c2 hc2
        obtain ⟨x, hx, hxeq⟩ := List.mem_map.mp hc2
        rw [← hxeq]
        by_cases hxid : x.id = c.id <;> simp [hxid, hnores x hx]
      have horders1 : (db1.orders.map Order.orderId).Nodup := by
        rw [hord1, orderIds_after_update db.orders oid _ (by intro x; rfl)]
        exact horders
      have hok1 : ∀ op2 ∈ rest, ∃ o2, findOrder db1.orders op2.1 = some o2 ∧
          o2.status = .pending ∧ o2.productId = P ∧ o2.cardKey = none ∧
          ¬(|op2.2 - o2.amount| > 1/100) := by
        intro op2 hop2
        obtain ⟨o2, h1, h2, h3, h4, h5⟩ := hok op2 (List.mem_cons_of_mem _ hop2)
        have hne : op2.1 ≠ oid := by
          intro h
          exact hoid_notin (h ▸ List.mem_map_of_mem _ hop2)
        refine ⟨o2, ?_, h2, h3, h4, h5⟩
        rw [hord1, findOrder_updateOrders_other db.orders oid op2.1 _ (by intro x; rfl) hne]
        exact h1
      have hfindP : db.cards.find? (eligibleAvailable P now) = some c := by
        rw [← List.filter_head?, hE]
        rfl
      have hE1 : db1.cards.filter (eligibleAvailable P now) = E' := by
        rw [hcards1,
          filter_after_claim db.cards (eligibleAvailable P now) c _ hids hfindP
            (by simp [eligibleAvailable]),
          hE]
        rfl
      obtain ⟨ihs, ihk⟩ := ih db1 hres1' hids1 hkeys1 hnores1 horders1 hrest_nodup hok1
      rw [hE1] at ihs ihk
      constructor
      · rw [hfm]
        simp only [List.map_cons, hhead_find, ihs, hE]
        simp only [List.length_cons, Nat.succ_min_succ, Nat.succ_sub_succ,
          List.replicate_succ, Option.map_some]
        rfl
      · rw [hfm]
        simp only [List.map_cons, hhead_find, ihk, hE]
        simp only [List.length_cons, Nat.succ_sub_succ, List.map_cons,
          List.take_succ_cons, List.replicate_succ, Option.some_bind]
        rfl

theorem filterMap_id_replicate_none {α : Type} (n : Nat) :
    (List.replicate n (none : Option α)).filterMap id = [] := by
  induction n with
  | zero => rfl
  | succ k ihn => simp [List.replicate_succ, List.filterMap_cons, ihn]

/-- C3: N fulfillments against N distinct pending orders of one product,
in any serial order realised by the database's row locking, with exactly
M < N available cards (`isUsed = false`, unreserved) for that product: the
orders' final statuses are exactly M `delivered` followed (in schedule
order) by N − M `paid`; the delivered orders carry the M available cards'
keys, pairwise distinct, the paid orders carry none — no card is assigned
to two orders. -/
theorem fulfill_concurrent_dichotomy (l : List (String × ℚ)) (db : DB) (P tno : String)
    (now : Nat)
    (hres : db.supportsReservation = true)
    (hids : (db.cards.map Card.id).Nodup)
    (hkeys : ∀ c ∈ db.cards, c.cardKey ≠ "")
    (hnores : ∀ c ∈ db.cards, c.reservedOrderId = none ∧ c.reservedAt = none)
    (horders : (db.orders.map Order.orderId).Nodup)
    (hl : (l.map Prod.fst).Nodup)
    (hok : ∀ op ∈ l, ∃ o, findOrder db.orders op.1 = some o ∧ o.status = .pending ∧
      o.productId = P ∧ o.cardKey = none ∧ ¬(|op.2 - o.amount| > 1/100))
    (hkeysN : ((db.cards.filter (fun c => decide (c.productId = P) && !c.isUsed)).map
      (fun c => c.cardKey)).Nodup)
    (hMN : (db.cards.filter (fun c => decide (c.productId = P) && !c.isUsed)).length
      < l.length) :
    l.map (fun op => (findOrder (fulfillMany db l tno now).orders op.1).map Order.status) =
      List.replicate
        (db.cards.filter (fun c => decide (c.productId = P) && !c.isUsed)).length
        (some OrderStatus.delivered) ++
      List.replicate
        (l.length - (db.cards.filter (fun c => decide (c.productId = P) && !c.isUsed)).length)
        (some OrderStatus.paid) ∧
    l.map (fun op => (findOrder (fulfillMany db l tno now).orders op.1).bind Order.cardKey) =
      ((db.cards.filter (fun c => decide (c.productId = P) && !c.isUsed)).map
        (fun c => c.cardKey)).map some ++
      List.replicate
        (l.length - (db.cards.filter (fun c => decide (c.productId = P) && !c.isUsed)).length)
        none ∧
    (l.filterMap
      (fun op => (findOrder (fulfillMany db l tno now).orders op.1).bind Order.cardKey)).Nodup := by
  have hfe : db.cards.filter (eligibleAvailable P now) =
      db.cards.filter (fun c => decide (c.productId = P) && !c.isUsed) := by
    apply List.filter_congr
    intro c hc
    simp [eligibleAvailable, (hnores c hc).2, eligibleLegacy]
  obtain ⟨hs, hk⟩ := fulfillMany_dichotomy l db P tno now hres hids hkeys
    (fun c hc => (hnores c hc).1) horders hl hok
  rw [hfe] at hs hk
  have hmin : min l.length
      (db.cards.filter (fun c => decide (c.productId = P) && !c.isUsed)).length =
      (db.cards.filter (fun c => decide (c.productId = P) && !c.isUsed)).length :=
    min_eq_right (le_of_lt hMN)
  have htake : (((db.cards.filter (fun c => decide (c.productId = P) && !c.isUsed)).map
      (fun c => c.cardKey)).take l.length) =
      ((db.cards.filter (fun c => decide (c.productId = P) && !c.isUsed)).map
      (fun c => c.cardKey)) :=
    List.take_of_length_le (by rw [List.length_map]; exact le_of_lt hMN)
  refine ⟨by rw [hs, hmin], by rw [hk, htake], ?_⟩
  have hfm2 : l.filterMap
      (fun op => (findOrder (fulfillMany db l tno now).orders op.1).bind Order.cardKey) =
      (l.map (fun op => (findOrder (fulfillMany db l tno now).orders op.1).bind
        Order.cardKey)).filterMap id := by
    rw [List.filterMap_map]
    rfl
  rw [hfm2, hk, htake, List.filterMap_append]
  have h1 : (((db.cards.filter (fun c => decide (c.productId = P) && !c.isUsed)).map
      (fun c => c.cardKey)).map some).filterMap id =
      (db.cards.filter (fun c => decide (c.productId = P) && !c.isUsed)).map
        (fun c => c.cardKey) := by
    rw [List.filterMap_map]
    exact List.filterMap_some _
  rw [h1, filterMap_id_replicate_none, List.append_nil]
  exact hkeysN





/-- Witness for C3: three pending orders for product PC, two available
cards — two orders end delivered with the two distinct keys, one ends paid. -/
theorem fulfill_concurrent_dichotomy_witness :
    [("OH1", (2:ℚ)), ("OH2", 2), ("OH3", 2)].map
      (fun op => (findOrder (fulfillMany dbH [("OH1", (2:ℚ)), ("OH2", 2), ("OH3", 2)]
        "TC" 0).orders op.1).map Order.status) =
      List.replicate
        (dbH.cards.filter (fun c => decide (c.productId = "PC") && !c.isUsed)).length
        (some OrderStatus.delivered) ++
      List.replicate
        (3 - (dbH.cards.filter (fun c => decide (c.productId = "PC") && !c.isUsed)).length)
        (some OrderStatus.paid) ∧
    [("OH1", (2:ℚ)), ("OH2", 2), ("OH3", 2)].map
      (fun op => (findOrder (fulfillMany dbH [("OH1", (2:ℚ)), ("OH2", 2), ("OH3", 2)]
        "TC" 0).orders op.1).bind Order.cardKey) =
      ((dbH.cards.filter (fun c => decide (c.productId = "PC") && !c.isUsed)).map
        (fun c => c.cardKey)).map some ++
      List.replicate
        (3 - (dbH.cards.filter (fun c => decide (c.productId = "PC") && !c.isUsed)).length)
        none ∧
    ([("OH1", (2:ℚ)), ("OH2", 2), ("OH3", 2)].filterMap
      (fun op => (findOrder (fulfillMany dbH [("OH1", (2:ℚ)), ("OH2", 2), ("OH3", 2)]
        "TC" 0).orders op.1).bind Order.cardKey)).Nodup :=
  fulfill_concurrent_dichotomy [("OH1", (2:ℚ)), ("OH2", 2), ("OH3", 2)] dbH "PC" "TC" 0
    rfl (by decide) (by decide) (by decide) (by decide) (by decide)
    (by intro op hop
        simp only [List.mem_cons, List.not_mem_nil, or_false] at hop
        rcases hop with rfl | rfl | rfl
        · exact ⟨oH1, rfl, rfl, rfl, rfl,
            by rw [show (2:ℚ) - oH1.amount = 0 by norm_num [oH1], abs_zero]; norm_num⟩
        · exact ⟨oH2, rfl, rfl, rfl, rfl,
            by rw [show (2:ℚ) - oH2.amount = 0 by norm_num [oH2], abs_zero]; norm_num⟩
        · exact ⟨oH3, rfl, rfl, rfl, rfl,
            by rw [show (2:ℚ) - oH3.amount = 0 by norm_num [oH3], abs_zero]; norm_num⟩)
    (by decide) (by decide)
